import Mathlib

/-!
Verification of the value-normalization, clustering, scoring, diffing and
forensics core of `scripts/collect.py` (web-design-system-extract).

The Python code is shallowly embedded: Python `str` becomes `List Char`
(wrapped in `String` at API boundaries), Python `float` becomes an exact
rational together with explicit `inf`/`-inf`/`nan` markers, Python dicts
become insertion-ordered association lists, and a Python function that can
raise an uncaught exception returns `Except Unit`.
-/

/-- Python whitespace stripping, `str.strip()`. -/
def pyStrip (s : List Char) : List Char :=
  ((s.dropWhile Char.isWhitespace).reverse.dropWhile Char.isWhitespace).reverse

/-- Python `str.lower()` (ASCII case folding suffices for the code's inputs). -/
def pyLower (s : List Char) : List Char :=
  s.map Char.toLower

/-- Python `str.strip(c)` for a single character `c`: remove every leading and
trailing occurrence of `c`. -/
def pyStripChar (c : Char) (s : List Char) : List Char :=
  ((s.dropWhile (fun d => d = c)).reverse.dropWhile (fun d => d = c)).reverse

/-- Python `str.replace(pat, "")`, fuelled so that the recursion is
structural: delete the leftmost occurrence of `pat`, repeatedly, scanning
left to right (non-overlapping). The fuel only ever decreases by one per
consumed character, so `s.length` fuel always suffices. -/
def removeAllAux (pat : List Char) : ℕ → List Char → List Char
  | _, [] => []
  | 0, s => s
  | fuel + 1, c :: rest =>
    if pat ≠ [] ∧ pat.isPrefixOf (c :: rest) = true then
      removeAllAux pat fuel ((c :: rest).drop pat.length)
    else
      c :: removeAllAux pat fuel rest

/-- Python `str.replace(pat, "")`. -/
def removeAll (pat : List Char) (s : List Char) : List Char :=
  removeAllAux pat s.length s

/-- Exact rational addition, multiplication and subtraction, stated through
`mkRat` so that they evaluate inside the kernel (the library operations on
`Rat` are irreducible); they agree with `+`, `*` and `-` on `ℚ`. -/
def qAdd (a b : ℚ) : ℚ :=
  mkRat (a.num * (b.den : ℤ) + b.num * (a.den : ℤ)) (a.den * b.den)

/-- Exact rational multiplication through `mkRat`; agrees with `*` on `ℚ`. -/
def qMul (a b : ℚ) : ℚ :=
  mkRat (a.num * b.num) (a.den * b.den)

/-- Exact rational subtraction through `mkRat`; agrees with `-` on `ℚ`. -/
def qSub (a b : ℚ) : ℚ :=
  mkRat (a.num * (b.den : ℤ) - b.num * (a.den : ℤ)) (a.den * b.den)

/-- The value of a Python `float`: a finite value, an infinity, or a NaN.
Finite values are the exact rational values of IEEE-754 binary64 doubles
(every double is a rational, so this loses nothing); `roundDouble` below
performs the binary64 rounding that CPython arithmetic and conversions
apply. -/
inductive PyF where
  | fin (q : ℚ)
  | inf
  | ninf
  | nan
deriving DecidableEq, Repr

/-- Numeric value of a decimal digit character. -/
def digitVal (c : Char) : ℕ := c.toNat - 48

/-- Value of a string of decimal digit characters. -/
def natOfDigits (l : List Char) : ℕ :=
  l.foldl (fun a c => 10 * a + digitVal c) 0

/-- CPython underscore rule for numeric literals passed to `float()`:
every underscore must sit between two digits. -/
def underscoreOk : List Char → Bool
  | [] => true
  | '_' :: _ => false
  | [_] => true
  | a :: '_' :: b :: r => a.isDigit && b.isDigit && underscoreOk (b :: r)
  | _ :: b :: r => underscoreOk (b :: r)

/-- Remove one optional leading sign character. -/
def stripSign (r : List Char) : List Char :=
  match r with
  | '+' :: t => t
  | '-' :: t => t
  | _ => r

/-- The sign factor of an optionally signed digit string. -/
def signVal (r : List Char) : ℤ :=
  match r with
  | '-' :: _ => -1
  | _ => 1

/-- The exponent tail of CPython's `float()` grammar: empty, or `e` followed
by an optionally signed non-empty digit string consuming the rest. -/
def parseExp (r2 : List Char) : Option ℤ :=
  match r2 with
  | [] => some 0
  | 'e' :: r3 =>
    if stripSign r3 ≠ [] ∧ (stripSign r3).all Char.isDigit = true then
      some (signVal r3 * (natOfDigits (stripSign r3) : ℤ))
    else none
  | _ => none

/-- Powers of ten, computed in 128-exponent chunks (plain `10 ^ k`, written
to evaluate cheaply on large `k`). The fuel is a structural-recursion bound;
`k` iterations always suffice. -/
def pow10Fuel : ℕ → ℕ → ℕ
  | 0, _ => 1
  | f + 1, k => if 128 ≤ k then 10 ^ 128 * pow10Fuel f (k - 128) else 10 ^ k

/-- `10 ^ k`. -/
def pow10 (k : ℕ) : ℕ :=
  pow10Fuel k k

/-- Powers of two, computed in 128-exponent chunks (plain `2 ^ k`, written
to evaluate cheaply on large `k`). The fuel is a structural-recursion bound;
`k` iterations always suffice. -/
def pow2Fuel : ℕ → ℕ → ℕ
  | 0, _ => 1
  | f + 1, k => if 128 ≤ k then 2 ^ 128 * pow2Fuel f (k - 128) else 2 ^ k

/-- `2 ^ k`. -/
def pow2 (k : ℕ) : ℕ :=
  pow2Fuel k k

/-- The decimal part of CPython's `float()` grammar, after sign removal:
`digits [. digits] [e [sign] digits]` with a non-empty mantissa, consuming
the whole string. Returns the exact rational value. -/
def parseDecCore (s : List Char) : Option ℚ :=
  let ip := s.takeWhile Char.isDigit
  let r1 := s.dropWhile Char.isDigit
  let fp := match r1 with
    | '.' :: r => r.takeWhile Char.isDigit
    | _ => []
  let r2 := match r1 with
    | '.' :: r => r.dropWhile Char.isDigit
    | _ => r1
  if ip ++ fp = [] then none
  else (parseExp r2).map fun e =>
    let mant : ℤ := (natOfDigits ip * pow10 fp.length + natOfDigits fp : ℕ)
    let k : ℤ := e - fp.length
    if 0 ≤ k then mkRat (mant * (pow10 k.toNat : ℕ)) 1
    else mkRat mant (pow10 (-k).toNat)

/-- Floor of the base-2 logarithm of a positive natural number; the fuel is
only a structural-recursion bound (`n` iterations always suffice). Numbers
of at least 128 bits are shifted in 128-bit chunks first, which keeps the
recursion depth small on huge literals such as `10 ^ 999`. -/
def log2Fuel : ℕ → ℕ → ℕ
  | 0, _ => 0
  | f + 1, n =>
    if 2 ^ 128 ≤ n then log2Fuel f (n / 2 ^ 128) + 128
    else if n ≤ 1 then 0
    else log2Fuel f (n / 2) + 1

/-- Floor of the base-2 logarithm (`0` for input `0`). -/
def natLog2 (n : ℕ) : ℕ :=
  log2Fuel n n

/-- Whether `2 ^ e ≤ n / d` for naturals `n` and positive `d`, with an
integer exponent `e`. -/
def pow2le (e : ℤ) (n d : ℕ) : Bool :=
  if 0 ≤ e then d * pow2 e.toNat ≤ n else d ≤ n * pow2 (-e).toNat

/-- Nearest integer to `a / b` (for `b > 0`), ties going to the even
neighbour: the rounding step of IEEE-754 round-to-nearest, ties-to-even. -/
def divNearEven (a b : ℕ) : ℕ :=
  let q := a / b
  let r := a % b
  if b < 2 * r then q + 1
  else if 2 * r < b then q
  else if q % 2 = 0 then q else q + 1

/-- The rational value `±(m * 2 ^ k)`, the sign taken from `sgn`. -/
def dyadic (sgn : ℤ) (m : ℕ) (k : ℤ) : ℚ :=
  let mag : ℚ :=
    if 0 ≤ k then mkRat ((m * pow2 k.toNat : ℕ) : ℤ) 1
    else mkRat (m : ℤ) (pow2 (-k).toNat)
  if sgn < 0 then -mag else mag

/-- Round an exact rational to the nearest IEEE-754 binary64 value
(round-to-nearest, ties-to-even), the rounding CPython applies both in its
correctly rounded `float(str)` conversion and after every float arithmetic
operation. The result is the exact rational value of the double obtained;
magnitudes whose rounded value reaches `2 ^ 1024` overflow to an infinity
(so `float("1e999")` is `inf`), values below half the smallest subnormal
underflow to `0`, and subnormals round at `2 ^ (-1074)`. Writing the binary
exponent `e` for `2 ^ e ≤ |x| < 2 ^ (e + 1)`, a normal result keeps 53
significand bits, i.e. is the rounding of `|x| * 2 ^ (52 - e)` in units of
`2 ^ (e - 52)`. -/
def roundDouble (x : ℚ) : PyF :=
  let n := x.num.natAbs
  let d := x.den
  if n = 0 then .fin 0
  else
    let e0 : ℤ := (natLog2 n : ℤ) - (natLog2 d : ℤ)
    let e : ℤ := if pow2le e0 n d then e0 else e0 - 1
    if e < -1022 then
      .fin (dyadic x.num (divNearEven (n * pow2 1074) d) (-1074))
    else
      let m := if 52 ≤ e then divNearEven n (d * pow2 (e - 52).toNat)
        else divNearEven (n * pow2 (52 - e).toNat) d
      let m2 := if m = 2 ^ 53 then 2 ^ 52 else m
      let e2 := if m = 2 ^ 53 then e + 1 else e
      if 1023 < e2 then (if x.num < 0 then .ninf else .inf)
      else .fin (dyadic x.num m2 (e2 - 52))

/-- CPython `float()` after whitespace stripping, case folding and underscore
removal: optional sign, then `inf`/`infinity`/`nan` or a decimal literal,
the literal's exact value rounded to the nearest binary64 double. -/
def pyFloatCore (t : List Char) : Option PyF :=
  let r := stripSign t
  if r = ("inf").data ∨ r = ("infinity").data then
    some (if signVal t = -1 then PyF.ninf else PyF.inf)
  else if r = ("nan").data then some PyF.nan
  else (parseDecCore r).map fun q => roundDouble (if signVal t = -1 then -q else q)

/-- CPython `float(str)`: strip whitespace, fold case, validate and drop
underscores, then parse sign and body; the decimal value is rounded to the
nearest binary64 double, so oversized literals such as `1e999` yield an
infinity exactly as CPython's conversion does. `none` models a
`ValueError`. -/
def pyFloat? (s : List Char) : Option PyF :=
  let t := pyLower (pyStrip s)
  if underscoreOk t then pyFloatCore (t.filter (fun c => c ≠ '_')) else none

/-- Python `int(f)` for a finite float: truncation toward zero. -/
def pyTrunc (q : ℚ) : ℤ :=
  q.num.tdiv (q.den : ℤ)

/-- Python float comparison `a >= q` for a rational bound (NaN compares false). -/
def PyF.geQ (a : PyF) (q : ℚ) : Bool :=
  match a with
  | .fin x => q ≤ x
  | .inf => true
  | .ninf => false
  | .nan => false

/-- Python float comparison `a > q` for a rational bound (NaN compares false). -/
def PyF.gtQ (a : PyF) (q : ℚ) : Bool :=
  match a with
  | .fin x => q < x
  | .inf => true
  | .ninf => false
  | .nan => false

/-- Python float multiplication by a finite float: the exact product rounded
back to a double (an oversized product overflows to an infinity, exactly as
CPython float multiplication does). -/
def PyF.mulQ (a : PyF) (q : ℚ) : PyF :=
  match a with
  | .fin x => roundDouble (qMul x q)
  | .inf => if 0 < q then .inf else if q < 0 then .ninf else .nan
  | .ninf => if 0 < q then .ninf else if q < 0 then .inf else .nan
  | .nan => .nan

/-- Floor of a rational (used by the model of Python's banker's rounding). -/
def ratFloor (q : ℚ) : ℤ :=
  q.num.fdiv (q.den : ℤ)

/-- Python `round(q, 3)`: round half to even at three decimals. -/
def pyRound3 (q : ℚ) : ℚ :=
  let x := qMul q 1000
  let n := ratFloor x
  let f := qSub x (mkRat n 1)
  let n2 := if mkRat 1 2 < f then n + 1
    else if f < mkRat 1 2 then n
    else if n % 2 = 0 then n else n + 1
  mkRat n2 1000

/-- Decimal rendering of `n / 1000` the way Python prints the corresponding
float: a sign, the integer part, a dot, and the fractional digits with
trailing zeros removed but at least one digit kept. -/
def renderThousandths (n : ℤ) : String :=
  let sign := if n < 0 then "-" else ""
  let m := n.natAbs
  let ip := m / 1000
  let fp := m % 1000
  let frac :=
    if fp = 0 then "0"
    else if fp % 100 = 0 then toString (fp / 100)
    else if fp % 10 = 0 then
      toString (fp / 100) ++ toString (fp / 10 % 10)
    else toString (fp / 100) ++ toString (fp / 10 % 10) ++ toString (fp % 10)
  sign ++ toString ip ++ "." ++ frac

/-- Python `str` of the float `round(a, 3)` as interpolated by the f-string in
`color_to_string`. -/
def pyFloatRepr3 (a : PyF) : String :=
  match a with
  | .fin q => renderThousandths (pyTrunc (qMul (pyRound3 q) 1000))
  | .inf => "inf"
  | .ninf => "-inf"
  | .nan => "nan"

/-- Channel conversion `int(float(part))` inside `parse_color`'s `try` block.
`.ok none` models a caught `ValueError` (unparseable text or NaN); `.error`
models the uncaught `OverflowError` raised by `int()` on an infinity. -/
def chanInt (s : List Char) : Except Unit (Option ℤ) :=
  match pyFloat? s with
  | none => .ok none
  | some .nan => .ok none
  | some .inf => .error ()
  | some .ninf => .error ()
  | some (.fin q) => .ok (some (pyTrunc q))

/-- The regex `rgba?\(([^)]+)\)` of `parse_color`, anchored at the start:
`rgb`, optional `a`, `(`, then the non-empty run up to the first `)`. -/
def rgbaBody (l : List Char) : Option (List Char) :=
  match l with
  | 'r' :: 'g' :: 'b' :: 'a' :: '(' :: rest => inner rest
  | 'r' :: 'g' :: 'b' :: '(' :: rest => inner rest
  | _ => none
where
  inner (rest : List Char) : Option (List Char) :=
    let body := rest.takeWhile (fun c => c ≠ ')')
    if body ≠ [] ∧ body.length < rest.length then some body else none

/-- Lower-case hexadecimal digit test, `[0-9a-f]` of the hex regex. -/
def isHexLower (c : Char) : Bool :=
  c.isDigit || ('a' ≤ c && c ≤ 'f')

/-- Value of a lower-case hexadecimal digit character. -/
def hexVal (c : Char) : ℕ :=
  if c.isDigit then digitVal c else c.toNat - 87

/-- The hex branch of `parse_color`: regex `#([0-9a-f]{3,8})` matched against
the start of the lowered string, then the 3/4/6/8-length cases; lengths 5 and
7 fall through to `None`. -/
def hexColor (l : List Char) : Option (ℤ × ℤ × ℤ × PyF) :=
  match l with
  | '#' :: rest =>
    match (rest.takeWhile isHexLower).take 8 with
    | [a, b, c] =>
      some ((17 * hexVal a : ℤ), (17 * hexVal b : ℤ), (17 * hexVal c : ℤ), .fin 1)
    | [a, b, c, d] =>
      some ((17 * hexVal a : ℤ), (17 * hexVal b : ℤ), (17 * hexVal c : ℤ),
        .fin (mkRat (17 * hexVal d : ℤ) 255))
    | [a, b, c, d, e, f] =>
      some ((16 * hexVal a + hexVal b : ℤ), (16 * hexVal c + hexVal d : ℤ),
        (16 * hexVal e + hexVal f : ℤ), .fin 1)
    | [a, b, c, d, e, f, g, h] =>
      some ((16 * hexVal a + hexVal b : ℤ), (16 * hexVal c + hexVal d : ℤ),
        (16 * hexVal e + hexVal f : ℤ), .fin (mkRat (16 * hexVal g + hexVal h : ℤ) 255))
    | _ => none
  | _ => none

/-- `parse_color(value)` of `scripts/collect.py`. The result is `.ok none` for
Python `None`, `.ok (some (r, g, b, a))` for a channel tuple, and `.error ()`
for the uncaught `OverflowError` path (`int(float(channel))` on an infinite
channel value — only `ValueError` is caught by the source). -/
def parse_color (value : String) : Except Unit (Option (ℤ × ℤ × ℤ × PyF)) :=
  if value.data = [] then .ok none else
  let l := pyLower (pyStrip value.data)
  if l = ("transparent").data ∨ l = ("none").data then .ok none else
  match rgbaBody l with
  | some body =>
    match (body.splitOn ',').map pyStrip with
    | p0 :: p1 :: p2 :: rest =>
      match chanInt p0 with
      | .error _ => .error ()
      | .ok none => .ok none
      | .ok (some r) =>
        match chanInt p1 with
        | .error _ => .error ()
        | .ok none => .ok none
        | .ok (some g) =>
          match chanInt p2 with
          | .error _ => .error ()
          | .ok none => .ok none
          | .ok (some b) =>
            match rest with
            | [] => .ok (some (r, g, b, .fin 1))
            | p3 :: _ =>
              match pyFloat? p3 with
              | none => .ok none
              | some a => .ok (some (r, g, b, a))
    | _ => .ok (hexColor l)
  | none => .ok (hexColor l)

/-- `color_to_string(rgba)` of `scripts/collect.py`. -/
def color_to_string (c : ℤ × ℤ × ℤ × PyF) : String :=
  match c with
  | (r, g, b, a) =>
    if a.geQ (mkRat 999 1000) then
      "rgb(" ++ toString r ++ ", " ++ toString g ++ ", " ++ toString b ++ ")"
    else
      "rgba(" ++ toString r ++ ", " ++ toString g ++ ", " ++ toString b ++ ", "
        ++ pyFloatRepr3 a ++ ")"

/-- `parse_length(value, root_font_size)` of `scripts/collect.py`. -/
def parse_length (value : String) (root_font_size : ℚ) : Option PyF :=
  if value.data = [] then none else
  let v := pyLower (pyStrip value.data)
  if v = ("auto").data ∨ v = ("normal").data ∨ v = ("none").data then none
  else if ("px").data.isSuffixOf v then pyFloat? (removeAll ("px").data v)
  else if ("rem").data.isSuffixOf v then
    (pyFloat? (removeAll ("rem").data v)).map (PyF.mulQ · root_font_size)
  else if ("em").data.isSuffixOf v then
    (pyFloat? (removeAll ("em").data v)).map (PyF.mulQ · root_font_size)
  else if ("%").data.isSuffixOf v then none
  else pyFloat? v

/-- Equality of embedded `parse_color` results is decidable (needed to
evaluate the parser on concrete inputs). -/
instance {e a : Type} [DecidableEq e] [DecidableEq a] : DecidableEq (Except e a) :=
  fun x y =>
    match x, y with
    | .error u, .error v =>
      if h : u = v then isTrue (by rw [h]) else isFalse (by intro hc; injection hc; exact h (by assumption))
    | .ok u, .ok v =>
      if h : u = v then isTrue (by rw [h]) else isFalse (by intro hc; injection hc; exact h (by assumption))
    | .error _, .ok _ => isFalse (by intro hc; cases hc)
    | .ok _, .error _ => isFalse (by intro hc; cases hc)

/-- Python's substring operator `pat in s`. -/
def pyContains (pat : List Char) : List Char → Bool
  | [] => pat.isEmpty
  | c :: rest => pat.isPrefixOf (c :: rest) || pyContains pat rest

/-- Bounding box of an element observation, `{x, y, width, height}`. -/
structure BBox where
  x : ℚ
  y : ℚ
  width : ℚ
  height : ℚ
deriving DecidableEq, Repr

/-- The fields of the candidate metadata dict that `score_candidate` reads:
`meta.get("text")` (with `None` folded to `""`) and `meta.get("bbox")`. -/
structure CandidateMeta where
  text : String
  bbox : Option BBox
deriving DecidableEq, Repr

/-- The computed-style subset read by `score_candidate`; a missing or `None`
property is represented by the empty string, exactly as the source's
`computed.get(key, "")` / `computed.get(key) or ""` produce. -/
structure CandidateComputed where
  font_weight : String
  background_color : String
  background_image : String
deriving DecidableEq, Repr

/-- The call-to-action lexicon of `score_candidate`, in source order. -/
def ctaKeywords : List String :=
  ["get started", "start", "free", "trial", "sign up", "register"]

/-- The font-weight rule of `score_candidate`: `int(float(fw)) >= 700` adds
one point; any exception (unparseable text, NaN, infinity) is swallowed by
the source's `except Exception: pass` and adds nothing. -/
def fontWeightScore (fw : List Char) : ℚ :=
  match pyFloat? fw with
  | some (.fin q) => if 700 ≤ pyTrunc q then 1 else 0
  | _ => 0

/-- `DesignSystemCollector.score_candidate` of `scripts/collect.py`: the
sequential accumulation `score += w` is rendered as a sum of one indicator
per source `if`. -/
def score_candidate (meta : CandidateMeta) (computed : CandidateComputed)
    (group : String) (viewport_height : ℚ) : ℚ :=
  let text := pyLower meta.text.data
  let area : PyF := match meta.bbox with
    | some bb => roundDouble (qMul bb.width bb.height)
    | none => .fin 0
  let yv : ℚ := match meta.bbox with
    | some bb => bb.y
    | none => 0
  let s1 : ℚ := if group = "cta" ∨ group = "button" then mkRat 5 2 else 0
  let s2 : ℚ := if group = "headline" then 2 else 0
  let s3 : ℚ := if group = "nav" then 1 else 0
  let s4 : ℚ := if ctaKeywords.any (fun k => pyContains k.data text) then 3 else 0
  let s5 : ℚ := if area.geQ 20000 then 1 else 0
  let s6 : ℚ := if yv < viewport_height then 1 else 0
  let s7 : ℚ := fontWeightScore (pyStrip computed.font_weight.data)
  let bg := pyLower computed.background_color.data
  let bgi := pyLower computed.background_image.data
  let s8 : ℚ :=
    if bg ≠ [] ∧ bg ≠ ("rgba(0, 0, 0, 0)").data ∧ bg ≠ ("transparent").data
    then mkRat 1 2 else 0
  let s9 : ℚ := if bgi ≠ [] ∧ bgi ≠ ("none").data then 1 else 0
  qAdd (qAdd (qAdd (qAdd (qAdd (qAdd (qAdd (qAdd s1 s2) s3) s4) s5) s6) s7) s8) s9

/-- A `Counter` tally: `(value, count)` pairs in first-seen insertion order
with pairwise-distinct values. -/
abbrev Tally := List (String × ℕ)

/-- Python `Counter.most_common()`: a stable sort of the insertion-ordered
items by descending count. CPython uses `sorted(..., reverse=True)`, which is
stable; `List.insertionSort` with a total preorder is stable as well, and a
stable sort's output is unique, so the two agree. -/
def most_common (t : Tally) : List (String × ℕ) :=
  t.insertionSort (fun a b => b.2 ≤ a.2)

/-- One `{"value": v, "count": c}` entry produced by `split_counter`. -/
structure TokenEntry where
  value : String
  count : ℕ
deriving DecidableEq, Repr

/-- `DesignSystemCollector.split_counter` of `scripts/collect.py`. -/
def split_counter (t : Tally) (top_n : ℕ) : List TokenEntry × List TokenEntry :=
  let items := most_common t
  ((items.take top_n).map fun p => ⟨p.1, p.2⟩,
   (items.drop top_n).map fun p => ⟨p.1, p.2⟩)

/-- Result of `compute_state_diff`: the `changed` dict as an ordered list of
`(property, (default_value, state_value))` entries, plus the reason string. -/
structure StateDiff where
  changed : List (String × String × String)
  reason : String
deriving DecidableEq, Repr

/-- `DesignSystemCollector.compute_state_diff` of `scripts/collect.py`.
Snapshots are insertion-ordered dicts; a failed capture is the dict
`{"error": ...}`, detected by the source with `"error" in state` (the
`not isinstance(state, dict)` disjunct cannot fire in this embedding, where
every snapshot is a dict). -/
def compute_state_diff (dflt state : List (String × String)) (reason : String) :
    StateDiff :=
  if (state.lookup "error").isSome then
    ⟨[], if reason = "" then "state failed" else reason⟩
  else
    ⟨state.filterMap (fun pv =>
        match dflt.lookup pv.1 with
        | some d => if pv.2 ≠ d then some (pv.1, d, pv.2) else none
        | none => none),
      ""⟩

/-- `SYSTEM_FONTS` of `scripts/collect.py` (a set; listed in source order). -/
def SYSTEM_FONTS : List String :=
  ["-apple-system", "blinkmacsystemfont", "segoe ui", "roboto", "helvetica",
   "arial", "noto sans", "sans-serif", "serif", "ui-sans-serif", "ui-serif",
   "ui-monospace", "system-ui"]

/-- First font-family token of a computed probe value, as normalized by
`build_font_conclusion`: `fam.split(",")[0].strip().strip(QUOTE).lower()`. -/
def firstFontToken (fam : String) : String :=
  ⟨pyLower (pyStripChar '"' (pyStrip ((fam.data.splitOn ',').headD [])))⟩

/-- Code-point comparison of strings, Python's `<=` used by `sorted`. -/
def strLeData (x y : List Char) : Bool :=
  match x, y with
  | [], _ => true
  | _ :: _, [] => false
  | cx :: tx, cy :: ty =>
    if cx.val < cy.val then true
    else if cy.val < cx.val then false
    else strLeData tx ty

/-- Declared `@font-face` families as collected by `build_font_conclusion`:
keep truthy values, delete every double and single quote, then
`sorted(set(...))` (a dedup followed by an ascending code-point sort). -/
def primaryFamilies (font_faces : List String) : List String :=
  let families := (font_faces.filter (fun f => f ≠ "")).map
    (fun f => (⟨removeAll [Char.ofNat 39] (removeAll [Char.ofNat 34] f.data)⟩ : String))
  families.dedup.insertionSort (fun a b => strLeData a.data b.data = true)

/-- Result of `build_font_conclusion` (the fields the claims talk about). -/
structure FontConclusion where
  status : String
  primary_families : List String
deriving DecidableEq, Repr

/-- `DesignSystemCollector.build_font_conclusion` of `scripts/collect.py`.
`font_faces` carries each face's `font_family` string (missing folded to
`""`), `font_probes` carries each probe's computed `font-family` string
(missing folded to `""`), `font_requests` the recorded font network request
URLs. -/
def build_font_conclusion (font_faces : List String) (font_probes : List String)
    (font_requests : List String) : FontConclusion :=
  let primary := primaryFamilies font_faces
  let computed_families := font_probes.filter (fun f => f ≠ "")
  let verified := computed_families.any (fun fam =>
    let first := firstFontToken fam
    first ≠ "" && !(SYSTEM_FONTS.contains first)
      && primary.any (fun f => pyContains first.data (pyLower f.data)))
  let verified := verified || (!font_requests.isEmpty && !computed_families.isEmpty)
  ⟨if verified then "VERIFIED" else "UNVERIFIED", primary⟩

/-- The fields of a collected sample that the accessibility builder's
target-size check reads. -/
structure AccSample where
  id : String
  component_type : String
  width : ℚ
  height : ℚ
deriving DecidableEq, Repr

/-- One undersized-target finding appended to `target_sizes`. -/
structure TargetSizeEntry where
  id : String
  component : String
  width : ℚ
  height : ℚ
deriving DecidableEq, Repr

/-- The `target_sizes` output of `DesignSystemCollector.build_accessibility`:
per sample, `if bbox.get("width") and bbox.get("height")` (numeric truthiness,
so zero dimensions are skipped) and then `width < 44 or height < 44`. -/
def build_accessibility_target_sizes (samples : List AccSample) :
    List TargetSizeEntry :=
  samples.filterMap fun s =>
    if s.width ≠ 0 ∧ s.height ≠ 0 then
      if s.width < 44 ∨ s.height < 44 then
        some ⟨s.id, s.component_type, s.width, s.height⟩
      else none
    else none

/-- The contrast-sample guard of `DesignSystemCollector.build_accessibility`:
parse the sample's `color` and `background-color`, and when both parse (to
truthy tuples) and the background alpha exceeds 0.9, pass the unmodified
`(r, g, b)` triples to `contrast_ratio`. Returns those arguments. -/
def build_accessibility_contrast_inputs (color background_color : String) :
    Option ((ℤ × ℤ × ℤ) × (ℤ × ℤ × ℤ)) :=
  match parse_color color, parse_color background_color with
  | .ok (some (r1, g1, b1, _)), .ok (some (r2, g2, b2, a2)) =>
    if a2.gtQ (mkRat 9 10) then some ((r1, g1, b1), (r2, g2, b2)) else none
  | _, _ => none

/-- The embedded addition agrees with rational addition. -/
theorem qAdd_eq (a b : ℚ) : qAdd a b = a + b := by
  unfold qAdd
  have ha : ((a.den : ℚ)) ≠ 0 := Nat.cast_ne_zero.mpr a.den_nz
  have hb : ((b.den : ℚ)) ≠ 0 := Nat.cast_ne_zero.mpr b.den_nz
  rw [Rat.mkRat_eq_div]
  push_cast
  conv_rhs => rw [← Rat.num_div_den a, ← Rat.num_div_den b]
  rw [div_add_div _ _ ha hb]
  ring_nf

/-- The embedded multiplication agrees with rational multiplication. -/
theorem qMul_eq (a b : ℚ) : qMul a b = a * b := by
  unfold qMul
  rw [Rat.mkRat_eq_div]
  push_cast
  conv_rhs => rw [← Rat.num_div_den a, ← Rat.num_div_den b]
  rw [div_mul_div_comm]

/-- C7 (code_bug record): `parse_color` does return null on `transparent`,
`none` and the empty string, but it is not exception-free: on an `rgb()` form
whose channel text parses to an infinite float (Python `float("inf")`), the
source's `int(float(part))` raises `OverflowError`, which the surrounding
`except ValueError` does not catch, so the call raises instead of returning
null. -/
theorem parse_color_raises_on_infinite_channel :
    parse_color "rgb(inf, 0, 0)" = .error ()
  ∧ parse_color "rgb(-infinity, 0, 0)" = .error ()
  ∧ parse_color "transparent" = .ok none
  ∧ parse_color "none" = .ok none
  ∧ parse_color "" = .ok none
  ∧ parse_color "not a color" = .ok none := by
  refine ⟨?_, ?_, ?_, ?_, ?_, ?_⟩ <;> decide

/-- C10: `parse_color` performs no range validation or clamping: the input
`rgb(300, -5, 999)` yields the channel tuple `(300, -5, 999)` with components
outside `[0, 255]`, `rgba(0, 0, 0, 5)` yields an alpha outside `[0, 1]`, and
the out-of-range values reach `color_to_string` and the `contrast_ratio` call
of `build_accessibility` unmodified. -/
theorem parse_color_no_clamping :
    parse_color "rgb(300, -5, 999)" = .ok (some (300, -5, 999, .fin 1))
  ∧ ((255 : ℤ) < 300 ∧ (-5 : ℤ) < 0 ∧ (255 : ℤ) < 999)
  ∧ color_to_string (300, -5, 999, .fin 1) = "rgb(300, -5, 999)"
  ∧ build_accessibility_contrast_inputs "rgb(300, -5, 999)" "rgb(300, -5, 999)"
      = some ((300, -5, 999), (300, -5, 999))
  ∧ parse_color "rgba(0, 0, 0, 5)" = .ok (some (0, 0, 0, .fin 5))
  ∧ (1 : ℚ) < 5 := by
  refine ⟨?_, ?_, ?_, ?_, ?_, ?_⟩ <;> decide

/-- C2 (counterexample): with a valid empty style mapping and the non-empty
reason `"boom"`, `compute_state_diff` does not return the reason — the
non-empty-reason disjunct of the claim does not trigger the early-exit
branch; only the error sentinel does. -/
theorem compute_state_diff_reason_counterexample :
    compute_state_diff [] [] "boom" ≠ ⟨[], "boom"⟩ := by
  decide

/-- C2 (amended): `compute_state_diff` returns `{changed: {}, reason: r}`,
with `r` the given reason or the fallback `"state failed"` when the given
reason is empty, exactly when the state carries the error sentinel; when the
state is a valid mapping without the sentinel, the returned reason is the
empty string regardless of the reason argument. -/
theorem compute_state_diff_failure_path (dflt state : List (String × String))
    (reason : String) :
    ((state.lookup "error").isSome →
      compute_state_diff dflt state reason
        = ⟨[], if reason = "" then "state failed" else reason⟩)
  ∧ (state.lookup "error" = none →
      (compute_state_diff dflt state reason).reason = "") := by
  constructor
  · intro h
    unfold compute_state_diff
    rw [if_pos h]
  · intro h
    unfold compute_state_diff
    rw [if_neg (by simp [h])]

/-- Witness for the amended C2 theorem at concrete inputs. -/
theorem compute_state_diff_failure_path_witness :
    compute_state_diff [("color", "red")] [("error", "focus failed")] "boom"
      = ⟨[], "boom"⟩
  ∧ compute_state_diff [("color", "red")] [("error", "focus failed")] ""
      = ⟨[], "state failed"⟩ :=
  ⟨by
    have h := (compute_state_diff_failure_path [("color", "red")]
      [("error", "focus failed")] "boom").1 (by decide)
    simpa using h,
   by
    have h := (compute_state_diff_failure_path [("color", "red")]
      [("error", "focus failed")] "").1 (by decide)
    simpa using h⟩

/-- Association-list lookup agrees with membership when keys are distinct. -/
theorem lookup_iff_mem {l : List (String × String)} {p v : String}
    (hn : (l.map Prod.fst).Nodup) : l.lookup p = some v ↔ (p, v) ∈ l := by
  induction l with
  | nil => simp [List.lookup]
  | cons a t ih =>
    obtain ⟨pa, va⟩ := a
    simp only [List.map_cons, List.nodup_cons, List.mem_map] at hn
    by_cases hpa : p = pa
    · subst hpa
      simp only [List.lookup, beq_self_eq_true, List.mem_cons, Prod.mk.injEq,
        true_and, Option.some.injEq]
      constructor
      · intro h
        exact Or.inl h.symm
      · rintro (h | h)
        · exact h.symm
        · exact absurd ⟨(p, v), h, rfl⟩ hn.1
    · have hbeq : (p == pa) = false := by
        simpa using hpa
      simp only [List.lookup, hbeq, List.mem_cons, Prod.mk.injEq]
      rw [ih hn.2]
      constructor
      · exact fun h => Or.inr h
      · rintro (⟨h1, _⟩ | h)
        · exact absurd h1 hpa
        · exact h

/-- The per-entry function of `compute_state_diff` produces an entry exactly
for a property present in both snapshots with differing values. -/
theorem diff_entry_eq_some {dflt : List (String × String)} {pv : String × String}
    {p d v : String} :
    (match dflt.lookup pv.1 with
      | some dd => if pv.2 ≠ dd then some (pv.1, dd, pv.2) else none
      | none => none) = some (p, d, v)
    ↔ pv = (p, v) ∧ dflt.lookup p = some d ∧ v ≠ d := by
  rcases h : dflt.lookup pv.1 with _ | dd
  · constructor
    · intro hf
      cases hf
    · rintro ⟨rfl, h2, _⟩
      rw [h] at h2
      cases h2
  · have hred : (match some dd with
        | some dd => if pv.2 ≠ dd then some (pv.1, dd, pv.2) else none
        | none => none) = if pv.2 ≠ dd then some (pv.1, dd, pv.2) else none := rfl
    rw [hred]
    by_cases hvd : pv.2 = dd
    · rw [if_neg (not_not_intro hvd)]
      constructor
      · intro hf
        cases hf
      · rintro ⟨rfl, h2, h3⟩
        rw [h] at h2
        injection h2 with h2
        exact absurd (hvd.trans h2) h3
    · rw [if_pos hvd]
      constructor
      · intro hf
        injection hf with hf
        rw [Prod.mk.injEq, Prod.mk.injEq] at hf
        obtain ⟨h1, h2, h3⟩ := hf
        refine ⟨Prod.ext h1 h3, ?_, ?_⟩
        · rw [← h1, h, h2]
        · rw [← h3, ← h2]
          exact hvd
      · rintro ⟨rfl, h2, h3⟩
        rw [h] at h2
        injection h2 with h2
        rw [h2]

/-- Membership in the `changed` set computed by `compute_state_diff` on a
successful capture: exactly the properties present in both snapshots whose
values differ, paired as `[default_value, state_value]`. -/
theorem mem_state_diff_changed (dflt state : List (String × String))
    (hs : (state.map Prod.fst).Nodup) (he : state.lookup "error" = none)
    (p d v : String) :
    (p, d, v) ∈ (compute_state_diff dflt state "").changed ↔
      state.lookup p = some v ∧ dflt.lookup p = some d ∧ v ≠ d := by
  have hne : ¬((state.lookup "error").isSome = true) := by
    simp [he]
  unfold compute_state_diff
  rw [if_neg hne]
  simp only [List.mem_filterMap]
  constructor
  · rintro ⟨pv, hmem, hf⟩
    obtain ⟨rfl, h2, h3⟩ := diff_entry_eq_some.mp hf
    exact ⟨(lookup_iff_mem hs).mpr hmem, h2, h3⟩
  · rintro ⟨h1, h2, h3⟩
    exact ⟨(p, v), (lookup_iff_mem hs).mp h1, diff_entry_eq_some.mpr ⟨rfl, h2, h3⟩⟩

/-- C3: for snapshots without the error sentinel and an empty reason,
`compute_state_diff` returns reason `""` and a `changed` set holding exactly
the properties present in both snapshots whose string values differ, mapped
to the `[default_value, state_value]` pair; identical snapshots therefore
diff to `{}`, and the claim's concrete black/white example produces exactly
its stated entry. -/
theorem compute_state_diff_changed_set (dflt state : List (String × String))
    (hs : (state.map Prod.fst).Nodup) (he : state.lookup "error" = none) :
    ((compute_state_diff dflt state "").reason = ""
  ∧ (∀ p d v, (p, d, v) ∈ (compute_state_diff dflt state "").changed ↔
      state.lookup p = some v ∧ dflt.lookup p = some d ∧ v ≠ d)
  ∧ compute_state_diff state state "" = ⟨[], ""⟩)
  ∧ compute_state_diff [("color", "rgb(0,0,0)")] [("color", "rgb(255,255,255)")] ""
      = ⟨[("color", "rgb(0,0,0)", "rgb(255,255,255)")], ""⟩ := by
  have hne : ¬((state.lookup "error").isSome = true) := by
    simp [he]
  refine ⟨⟨?_, mem_state_diff_changed dflt state hs he, ?_⟩, ?_⟩
  · unfold compute_state_diff
    rw [if_neg hne]
  · have hch : (compute_state_diff state state "").changed = [] := by
      rw [List.eq_nil_iff_forall_not_mem]
      rintro ⟨p, d, v⟩ hx
      obtain ⟨h1, h2, h3⟩ := (mem_state_diff_changed state state hs he p d v).mp hx
      rw [h1] at h2
      injection h2 with h2
      exact h3 h2
    have hr : (compute_state_diff state state "").reason = "" := by
      unfold compute_state_diff
      rw [if_neg hne]
    rcases hval : compute_state_diff state state "" with ⟨ch, r⟩
    rw [hval] at hch hr
    simp only at hch hr
    rw [hch, hr]
  · decide

/-- Witness for the C3 theorem at concrete snapshots. -/
theorem compute_state_diff_changed_set_witness :
    (compute_state_diff [("color", "a"), ("opacity", "1")]
        [("color", "b"), ("opacity", "1")] "").reason = ""
  ∧ compute_state_diff [("color", "a"), ("opacity", "1")]
        [("color", "a"), ("opacity", "1")] "" = ⟨[], ""⟩ :=
  ⟨(compute_state_diff_changed_set [("color", "a"), ("opacity", "1")]
      [("color", "b"), ("opacity", "1")] (by decide) (by decide)).1.1,
   (compute_state_diff_changed_set [("color", "a"), ("opacity", "1")]
      [("color", "a"), ("opacity", "1")] (by decide) (by decide)).1.2.2⟩

/-- C6 (counterexample): the claim's "exactly when width or height is below
44" fails on a zero-width sample — the source's truthiness guard
`if bbox.get("width") and bbox.get("height")` skips it even though `0 < 44`. -/
theorem target_sizes_counterexample :
    ¬ (((⟨"s0", "button", 0, 32⟩ : TargetSizeEntry) ∈
          build_accessibility_target_sizes [⟨"s0", "button", 0, 32⟩]) ↔
        ((0 : ℚ) < 44 ∨ (32 : ℚ) < 44)) := by
  decide

/-- C6 (amended): a sample yields an undersized-target entry (its id,
component type, width and height) exactly when both bbox dimensions are
non-zero (truthy) and width or height is below 44; the claim's
`{width:40, height:32}` sample is recorded and `{width:48, height:48}` is
not. -/
theorem target_sizes_spec (samples : List AccSample) (s : AccSample)
    (hs : s ∈ samples) :
    (((⟨s.id, s.component_type, s.width, s.height⟩ : TargetSizeEntry) ∈
        build_accessibility_target_sizes samples) ↔
      ((s.width ≠ 0 ∧ s.height ≠ 0) ∧ (s.width < 44 ∨ s.height < 44)))
  ∧ ((⟨"a", "button", 40, 32⟩ : TargetSizeEntry) ∈
      build_accessibility_target_sizes
        [⟨"a", "button", 40, 32⟩, ⟨"b", "button", 48, 48⟩])
  ∧ ((⟨"b", "button", 48, 48⟩ : TargetSizeEntry) ∉
      build_accessibility_target_sizes
        [⟨"a", "button", 40, 32⟩, ⟨"b", "button", 48, 48⟩]) := by
  refine ⟨?_, by decide, by decide⟩
  unfold build_accessibility_target_sizes
  simp only [List.mem_filterMap]
  constructor
  · rintro ⟨s2, hmem2, hf⟩
    by_cases h1 : s2.width ≠ 0 ∧ s2.height ≠ 0
    · rw [if_pos h1] at hf
      by_cases h2 : s2.width < 44 ∨ s2.height < 44
      · rw [if_pos h2] at hf
        injection hf with hf
        rw [TargetSizeEntry.mk.injEq] at hf
        obtain ⟨_, _, hw, hh⟩ := hf
        rw [← hw, ← hh]
        exact ⟨h1, h2⟩
      · rw [if_neg h2] at hf
        cases hf
    · rw [if_neg h1] at hf
      cases hf
  · rintro ⟨h1, h2⟩
    exact ⟨s, hs, by rw [if_pos h1, if_pos h2]⟩

/-- Witness for the amended C6 theorem at a concrete batch. -/
theorem target_sizes_spec_witness :
    ((⟨"a", "chip", 40, 50⟩ : TargetSizeEntry) ∈
        build_accessibility_target_sizes [⟨"a", "chip", 40, 50⟩]) ↔
      (((⟨"a", "chip", 40, 50⟩ : AccSample).width ≠ 0
          ∧ (⟨"a", "chip", 40, 50⟩ : AccSample).height ≠ 0)
        ∧ ((⟨"a", "chip", 40, 50⟩ : AccSample).width < 44
          ∨ (⟨"a", "chip", 40, 50⟩ : AccSample).height < 44)) :=
  (target_sizes_spec [⟨"a", "chip", 40, 50⟩] ⟨"a", "chip", 40, 50⟩ (by decide)).1

section ClassicalScore

open Classical

set_option maxRecDepth 20000

/-- The font-weight rule equals an indicator of "parses to an integer that is
at least 700". -/
theorem fontWeightScore_eq (fw : List Char) :
    fontWeightScore fw =
      if ∃ q : ℚ, pyFloat? fw = some (.fin q) ∧ 700 ≤ pyTrunc q then 1 else 0 := by
  unfold fontWeightScore
  rcases h : pyFloat? fw with _ | f
  · rw [if_neg]
    rintro ⟨q, hq, _⟩
    cases hq
  · rcases f with q | _ | _ | _
    · show (if 700 ≤ pyTrunc q then (1 : ℚ) else 0) = _
      by_cases h7 : 700 ≤ pyTrunc q
      · rw [if_pos h7, if_pos ⟨q, rfl, h7⟩]
      · rw [if_neg h7, if_neg]
        rintro ⟨q2, hq2, h72⟩
        injection hq2 with hq2
        injection hq2 with hq2
        rw [hq2] at h7
        exact h7 h72
    · rw [if_neg]
      rintro ⟨q, hq, _⟩
      injection hq with hq
      cases hq
    · rw [if_neg]
      rintro ⟨q, hq, _⟩
      injection hq with hq
      cases hq
    · rw [if_neg]
      rintro ⟨q, hq, _⟩
      injection hq with hq
      cases hq

/-- C4: `score_candidate` equals the sum of the claim's fixed additive
weights, one indicator per condition (the area being the rounded float
product of the bbox dimensions); in particular the claim's concrete cta
candidate (text "Get Started", area 25000, font-weight 800, opaque
background) scores 8.0 when below the fold and 9.0 with the above-fold
bonus; a font-weight text of `699.99999999999999` rounds to the double
`700.0` and earns the weight bonus, while `1e999` converts to an infinity,
whose `int()` conversion raises and is swallowed, earning nothing. -/
theorem score_candidate_additive (meta : CandidateMeta)
    (computed : CandidateComputed) (group : String) (viewport_height : ℚ) :
    (score_candidate meta computed group viewport_height =
        (if group = "cta" ∨ group = "button" then 5 / 2 else 0)
      + (if group = "headline" then 2 else 0)
      + (if group = "nav" then 1 else 0)
      + (if ∃ k ∈ ctaKeywords, pyContains k.data (pyLower meta.text.data) = true
          then 3 else 0)
      + (if (match meta.bbox with
            | some bb => roundDouble (bb.width * bb.height)
            | none => PyF.fin 0).geQ 20000 = true then 1 else 0)
      + (if (match meta.bbox with
            | some bb => bb.y
            | none => (0 : ℚ)) < viewport_height then 1 else 0)
      + (if ∃ q : ℚ, pyFloat? (pyStrip computed.font_weight.data)
            = some (.fin q) ∧ 700 ≤ pyTrunc q then 1 else 0)
      + (if pyLower computed.background_color.data ≠ []
            ∧ pyLower computed.background_color.data ≠ ("rgba(0, 0, 0, 0)").data
            ∧ pyLower computed.background_color.data ≠ ("transparent").data
          then 1 / 2 else 0)
      + (if pyLower computed.background_image.data ≠ []
            ∧ pyLower computed.background_image.data ≠ ("none").data
          then 1 else 0))
  ∧ score_candidate ⟨"Get Started", some ⟨0, 900, 250, 100⟩⟩
      ⟨"800", "rgb(10, 20, 30)", "none"⟩ "cta" 800 = 8
  ∧ score_candidate ⟨"Get Started", some ⟨0, 100, 250, 100⟩⟩
      ⟨"800", "rgb(10, 20, 30)", "none"⟩ "cta" 800 = 9
  ∧ score_candidate ⟨"Get Started", some ⟨0, 900, 250, 100⟩⟩
      ⟨"699.99999999999999", "rgb(10, 20, 30)", "none"⟩ "cta" 800 = 8
  ∧ score_candidate ⟨"Get Started", some ⟨0, 900, 250, 100⟩⟩
      ⟨"1e999", "rgb(10, 20, 30)", "none"⟩ "cta" 800 = 7 := by
  refine ⟨?_, by decide, by decide, by decide, by decide⟩
  simp only [score_candidate, qAdd_eq, qMul_eq, fontWeightScore_eq,
    List.any_eq_true]
  norm_num

end ClassicalScore

/-- C5 (counterexample): the claim's tier-1 condition as stated — first token
not in the denylist and a substring of a declared family — omits the source's
truthiness check on the token. For a probe value `",x"` the first token is
the empty string, which is not in the denylist and is a substring of every
declared family, so the claim calls it VERIFIED while the code returns
UNVERIFIED. -/
theorem font_conclusion_counterexample :
    ¬ (((build_font_conclusion ["Inter"] [",x"] []).status = "VERIFIED") ↔
        ((∃ fam ∈ ([",x"] : List String),
            firstFontToken fam ∉ SYSTEM_FONTS
            ∧ ∃ fa ∈ primaryFamilies ["Inter"],
                pyContains (firstFontToken fam).data (pyLower fa.data) = true)
          ∨ (([] : List String) ≠ []
              ∧ ∃ fam ∈ ([",x"] : List String), fam ≠ ""))) := by
  decide

/-- C5 (amended): `build_font_conclusion` reports VERIFIED exactly when some
probe's first font-family token (whitespace- and double-quote-stripped,
lower-cased) is non-empty, outside the system-font denylist and a substring
of some declared family (tier 1), or there is at least one font network
request together with at least one non-empty computed probe (tier 2);
otherwise the status is UNVERIFIED (it is always one of the two); the
claim's concrete Inter scenario is VERIFIED. -/
theorem font_conclusion_verified_iff (faces probes reqs : List String) :
    ((build_font_conclusion faces probes reqs).status = "VERIFIED" ↔
      ((∃ fam ∈ probes, firstFontToken fam ≠ ""
          ∧ firstFontToken fam ∉ SYSTEM_FONTS
          ∧ ∃ fa ∈ primaryFamilies faces,
              pyContains (firstFontToken fam).data (pyLower fa.data) = true)
        ∨ (reqs ≠ [] ∧ ∃ fam ∈ probes, fam ≠ "")))
  ∧ ((build_font_conclusion faces probes reqs).status = "VERIFIED"
      ∨ (build_font_conclusion faces probes reqs).status = "UNVERIFIED")
  ∧ (build_font_conclusion ["Inter"] ["Inter, sans-serif"]
      ["https://x/font.woff2"]).status = "VERIFIED" := by
  refine ⟨?ifftier, ?totalstat, by decide⟩
  case totalstat =>
    have h : ∀ (b : Bool) (p : List String),
        (FontConclusion.mk (if b = true then "VERIFIED" else "UNVERIFIED")
            p).status = "VERIFIED"
      ∨ (FontConclusion.mk (if b = true then "VERIFIED" else "UNVERIFIED")
            p).status = "UNVERIFIED" := by
      intro b p
      cases b
      · exact Or.inr rfl
      · exact Or.inl rfl
    exact h _ _
  have hstat : ∀ b : Bool,
      ((if b = true then ("VERIFIED" : String) else "UNVERIFIED") = "VERIFIED") ↔
        b = true := by
    intro b
    cases b <;> simp
  unfold build_font_conclusion
  simp only []
  rw [hstat]
  simp only [Bool.or_eq_true, Bool.and_eq_true, Bool.not_eq_true',
    List.any_eq_true, List.mem_filter, decide_eq_true_eq, List.contains,
    List.elem_eq_mem, decide_eq_false_iff_not, List.isEmpty_eq_false]
  constructor
  · rintro (⟨x, ⟨hx, hxne⟩, ⟨h1, h2⟩, fa, hfa, h3⟩ | ⟨hreq, hcomp⟩)
    · exact Or.inl ⟨x, hx, h1, h2, fa, hfa, h3⟩
    · refine Or.inr ⟨hreq, ?_⟩
      by_contra hno
      push_neg at hno
      exact hcomp (List.filter_eq_nil_iff.mpr (fun a ha => by simp [hno a ha]))
  · rintro (⟨fam, hfam, h1, h2, fa, hfa, h3⟩ | ⟨hreq, fam, hfam, hne⟩)
    · refine Or.inl ⟨fam, ⟨hfam, ?_⟩, ⟨h1, h2⟩, fa, hfa, h3⟩
      intro hemp
      rw [hemp] at h1
      exact h1 rfl
    · refine Or.inr ⟨hreq, ?_⟩
      intro hnil
      have := List.filter_eq_nil_iff.mp hnil fam hfam
      simp [hne] at this

/-- C1: `split_counter` with `top_n = 12` splits the tally into lists whose
concatenation is a permutation of the tally's entries with counts unchanged
(and, keys being distinct, every entry lands in exactly one of the two
lists), `top` holds the first `min 12 n` entries, the concatenation is
ordered by descending count with ties kept in first-seen order (for each
count value the entries appear exactly as in the input), and a tally of 20
distinct values yields 12 top entries and 8 outliers. -/
theorem split_counter_spec (t : Tally) (hk : (t.map Prod.fst).Nodup) :
    List.Perm ((split_counter t 12).1 ++ (split_counter t 12).2)
        (t.map (fun p => (⟨p.1, p.2⟩ : TokenEntry)))
  ∧ (split_counter t 12).1.length = min 12 t.length
  ∧ ((split_counter t 12).1 ++ (split_counter t 12).2).Pairwise
      (fun a b => b.count ≤ a.count)
  ∧ (∀ k : ℕ, ((split_counter t 12).1 ++ (split_counter t 12).2).filter
        (fun e => e.count == k)
      = (t.filter (fun p => p.2 == k)).map (fun p => (⟨p.1, p.2⟩ : TokenEntry)))
  ∧ (∀ p ∈ t, ((⟨p.1, p.2⟩ : TokenEntry) ∈ (split_counter t 12).1
        ∧ (⟨p.1, p.2⟩ : TokenEntry) ∉ (split_counter t 12).2)
      ∨ ((⟨p.1, p.2⟩ : TokenEntry) ∈ (split_counter t 12).2
        ∧ (⟨p.1, p.2⟩ : TokenEntry) ∉ (split_counter t 12).1))
  ∧ (t.length = 20 →
      (split_counter t 12).1.length = 12 ∧ (split_counter t 12).2.length = 8) := by
  haveI hTot : IsTotal (String × ℕ) (fun a b => b.2 ≤ a.2) :=
    ⟨fun a b => Nat.le_total b.2 a.2⟩
  haveI hTrans : IsTrans (String × ℕ) (fun a b => b.2 ≤ a.2) :=
    ⟨fun a b c h1 h2 => Nat.le_trans h2 h1⟩
  have hglue : (split_counter t 12).1 ++ (split_counter t 12).2
      = (most_common t).map (fun p => (⟨p.1, p.2⟩ : TokenEntry)) := by
    unfold split_counter
    simp only []
    rw [← List.map_append, List.take_append_drop]
  have hperm : List.Perm (most_common t) t := List.perm_insertionSort _ t
  have hsorted : (most_common t).Pairwise (fun a b : String × ℕ => b.2 ≤ a.2) :=
    List.sorted_insertionSort _ t
  have hinj : Function.Injective (fun p : String × ℕ => (⟨p.1, p.2⟩ : TokenEntry)) := by
    intro a b h
    rw [TokenEntry.mk.injEq] at h
    exact Prod.ext h.1 h.2
  have hlen1 : (split_counter t 12).1.length = min 12 t.length := by
    unfold split_counter
    simp only [List.length_map, List.length_take]
    rw [show (most_common t).length = t.length from hperm.length_eq]
  refine ⟨?_, hlen1, ?_, ?_, ?_, ?_⟩
  · rw [hglue]
    exact hperm.map _
  · rw [hglue]
    exact List.pairwise_map.mpr hsorted
  · intro k
    have hpw : (t.filter (fun p => p.2 == k)).Pairwise
        (fun a b : String × ℕ => b.2 ≤ a.2) := by
      refine List.pairwise_of_forall_mem_list ?_
      intro a ha b hb
      have ha2 := (List.mem_filter.mp ha).2
      have hb2 := (List.mem_filter.mp hb).2
      rw [Nat.beq_eq_true_eq] at ha2 hb2
      rw [ha2, hb2]
    have hsub : List.Sublist (t.filter (fun p => p.2 == k)) (most_common t) :=
      List.sublist_insertionSort hpw (List.filter_sublist t)
    have hc_eq : (t.filter (fun p => p.2 == k)).filter (fun p => p.2 == k)
        = t.filter (fun p => p.2 == k) :=
      List.filter_eq_self.mpr (fun a ha => (List.mem_filter.mp ha).2)
    have hsub2 := hsub.filter (fun p : String × ℕ => p.2 == k)
    rw [hc_eq] at hsub2
    have hpermf : List.Perm ((most_common t).filter (fun p => p.2 == k))
        (t.filter (fun p => p.2 == k)) := hperm.filter _
    have heq : t.filter (fun p => p.2 == k)
        = (most_common t).filter (fun p => p.2 == k) :=
      hsub2.eq_of_length (by rw [hpermf.length_eq])
    rw [hglue, List.filter_map]
    show ((most_common t).filter (fun p : String × ℕ => p.2 == k)).map _ = _
    rw [← heq]
  · intro p hp
    have hnodup : ((split_counter t 12).1 ++ (split_counter t 12).2).Nodup := by
      rw [hglue]
      refine (hperm.map (fun p : String × ℕ => (⟨p.1, p.2⟩ : TokenEntry))).nodup_iff.mpr ?_
      exact (List.Nodup.of_map Prod.fst hk).map hinj
    have hmem : (⟨p.1, p.2⟩ : TokenEntry)
        ∈ (split_counter t 12).1 ++ (split_counter t 12).2 := by
      rw [hglue]
      exact List.mem_map_of_mem _ (hperm.mem_iff.mpr hp)
    have hdisj := List.disjoint_of_nodup_append hnodup
    rcases List.mem_append.mp hmem with h | h
    · exact Or.inl ⟨h, fun h2 => hdisj h h2⟩
    · exact Or.inr ⟨h, fun h2 => hdisj h2 h⟩
  · intro h20
    constructor
    · rw [hlen1, h20]
      decide
    · unfold split_counter
      simp only [List.length_map, List.length_drop]
      rw [show (most_common t).length = t.length from hperm.length_eq, h20]

/-- Witness for the C1 theorem at a concrete tally. -/
theorem split_counter_spec_witness :
    ((split_counter [("a", 2), ("b", 1)] 12).1
        ++ (split_counter [("a", 2), ("b", 1)] 12).2).Pairwise
      (fun a b => b.count ≤ a.count)
  ∧ (split_counter [("a", 2), ("b", 1)] 12).1.length
      = min 12 ([("a", 2), ("b", 1)] : Tally).length :=
  ⟨(split_counter_spec [("a", 2), ("b", 1)] (by decide)).2.2.1,
   (split_counter_spec [("a", 2), ("b", 1)] (by decide)).2.1⟩

/-- The hexadecimal digit characters accepted (after lower-casing) by the hex
branch of `parse_color`. -/
def hexDigits : List Char :=
  '0' :: '1' :: '2' :: '3' :: '4' :: '5' :: '6' :: '7' :: '8' :: '9'
    :: 'a' :: 'b' :: 'c' :: 'd' :: 'e' :: 'f'
    :: 'A' :: 'B' :: 'C' :: 'D' :: 'E' :: 'F' :: []

/-- Hex digit characters are not whitespace, and lower-case to `[0-9a-f]`. -/
theorem hex_char_facts {c : Char} (h : c ∈ hexDigits) :
    c.isWhitespace = false ∧ isHexLower c.toLower = true := by
  fin_cases h <;> exact ⟨by decide, by decide⟩

/-- A predicate failing on every element leaves `dropWhile` inert. -/
theorem dropWhile_eq_self_of {p : Char → Bool} {l : List Char}
    (h : ∀ c ∈ l, p c = false) : l.dropWhile p = l := by
  cases l with
  | nil => rfl
  | cons a t =>
    rw [List.dropWhile_cons, h a (List.mem_cons_self a t)]
    simp

/-- Stripping a string with no leading or trailing whitespace is inert. -/
theorem pyStrip_eq_self {l : List Char} (h : ∀ c ∈ l, c.isWhitespace = false) :
    pyStrip l = l := by
  unfold pyStrip
  rw [dropWhile_eq_self_of h,
    dropWhile_eq_self_of (fun c hc => h c (List.mem_reverse.mp hc)),
    List.reverse_reverse]

/-- The hex branch on `#` followed by exactly six lower-hex digits yields the
six-digit channel decomposition with opaque alpha. -/
theorem hexColor_six (a b c d e f : Char)
    (ha : isHexLower a = true) (hb : isHexLower b = true)
    (hc : isHexLower c = true) (hd : isHexLower d = true)
    (he : isHexLower e = true) (hf : isHexLower f = true) :
    hexColor ('#' :: [a, b, c, d, e, f]) =
      some ((16 * hexVal a + hexVal b : ℤ), (16 * hexVal c + hexVal d : ℤ),
        (16 * hexVal e + hexVal f : ℤ), .fin 1) := by
  unfold hexColor
  simp only [List.takeWhile_cons, ha, hb, hc, hd, he, hf, if_true,
    List.takeWhile_nil]
  rfl

/-- C8: for every 6-digit hex color `#RRGGBB` (upper- or lower-case digits),
`parse_color` returns the channel tuple whose components are the decimal
values of the hex pairs with alpha 1, and `color_to_string` renders it as
`rgb(R, G, B)` with the decimal renderings of those same channel values. -/
theorem hex6_roundtrip (c1 c2 c3 c4 c5 c6 : Char)
    (h1 : c1 ∈ hexDigits) (h2 : c2 ∈ hexDigits) (h3 : c3 ∈ hexDigits)
    (h4 : c4 ∈ hexDigits) (h5 : c5 ∈ hexDigits) (h6 : c6 ∈ hexDigits) :
    parse_color ⟨['#', c1, c2, c3, c4, c5, c6]⟩ =
      .ok (some ((16 * hexVal c1.toLower + hexVal c2.toLower : ℤ),
        (16 * hexVal c3.toLower + hexVal c4.toLower : ℤ),
        (16 * hexVal c5.toLower + hexVal c6.toLower : ℤ), .fin 1))
  ∧ color_to_string ((16 * hexVal c1.toLower + hexVal c2.toLower : ℤ),
        (16 * hexVal c3.toLower + hexVal c4.toLower : ℤ),
        (16 * hexVal c5.toLower + hexVal c6.toLower : ℤ), .fin 1)
      = "rgb(" ++ toString (16 * hexVal c1.toLower + hexVal c2.toLower : ℤ)
        ++ ", " ++ toString (16 * hexVal c3.toLower + hexVal c4.toLower : ℤ)
        ++ ", " ++ toString (16 * hexVal c5.toLower + hexVal c6.toLower : ℤ)
        ++ ")" := by
  obtain ⟨hw1, hx1⟩ := hex_char_facts h1
  obtain ⟨hw2, hx2⟩ := hex_char_facts h2
  obtain ⟨hw3, hx3⟩ := hex_char_facts h3
  obtain ⟨hw4, hx4⟩ := hex_char_facts h4
  obtain ⟨hw5, hx5⟩ := hex_char_facts h5
  obtain ⟨hw6, hx6⟩ := hex_char_facts h6
  constructor
  · unfold parse_color
    have hdat : (⟨['#', c1, c2, c3, c4, c5, c6]⟩ : String).data
        = ['#', c1, c2, c3, c4, c5, c6] := rfl
    rw [hdat, if_neg (by simp)]
    have hno_ws : ∀ c ∈ ['#', c1, c2, c3, c4, c5, c6], c.isWhitespace = false := by
      intro c hc
      simp only [List.mem_cons, List.not_mem_nil, or_false] at hc
      rcases hc with rfl | rfl | rfl | rfl | rfl | rfl | rfl
      · decide
      · exact hw1
      · exact hw2
      · exact hw3
      · exact hw4
      · exact hw5
      · exact hw6
    rw [pyStrip_eq_self hno_ws]
    simp only [pyLower, List.map_cons, List.map_nil]
    rw [show ('#'.toLower) = '#' from rfl]
    rw [if_neg ?hnc]
    case hnc =>
      rintro (h | h) <;>
      · have hh := congrArg List.head? h
        rw [List.head?_cons, List.head?_cons] at hh
        exact absurd hh (by decide)
    rw [show rgbaBody ('#' :: [c1.toLower, c2.toLower, c3.toLower, c4.toLower,
      c5.toLower, c6.toLower]) = none from rfl]
    rw [hexColor_six _ _ _ _ _ _ hx1 hx2 hx3 hx4 hx5 hx6]
  · have hge : (PyF.fin 1).geQ (mkRat 999 1000) = true := by decide
    simp only [color_to_string, hge, if_true]

/-- Witness for the C8 theorem at the concrete color `#ff00ab`. -/
theorem hex6_roundtrip_witness :
    parse_color "#ff00ab" = .ok (some (255, 0, 171, .fin 1))
  ∧ color_to_string (255, 0, 171, .fin 1) = "rgb(255, 0, 171)" := by
  have h := hex6_roundtrip 'f' 'f' '0' '0' 'a' 'b' (by decide) (by decide)
    (by decide) (by decide) (by decide) (by decide)
  exact ⟨h.1, h.2⟩

/-- The characters that can appear in a string accepted by the `float()`
grammar (after case folding): digits, sign, dot, exponent marker, underscore
and the letters of `inf`/`infinity`/`nan`. -/
def coreOK (c : Char) : Bool :=
  c.isDigit || c ∈ ['+', '-', '.', 'e', '_', 'i', 'n', 'f', 'a', 't', 'y']

/-- Every character of an optionally signed string is the sign or a
character of the sign-stripped remainder. -/
theorem mem_of_stripSign (r : List Char) :
    ∀ c ∈ r, c = '+' ∨ c = '-' ∨ c ∈ stripSign r := by
  intro c hc
  unfold stripSign
  split
  · rename_i t
    rcases List.mem_cons.mp hc with rfl | h2
    · exact Or.inl rfl
    · exact Or.inr (Or.inr h2)
  · rename_i t
    rcases List.mem_cons.mp hc with rfl | h2
    · exact Or.inr (Or.inl rfl)
    · exact Or.inr (Or.inr h2)
  · exact Or.inr (Or.inr hc)

/-- An accepted exponent tail only contains `float()`-grammar characters. -/
theorem parseExp_charset {r2 : List Char} {e : ℤ} (h : parseExp r2 = some e) :
    ∀ c ∈ r2, coreOK c = true := by
  intro c hc
  unfold parseExp at h
  split at h
  · cases hc
  · rename_i r3
    rcases List.mem_cons.mp hc with rfl | h3
    · decide
    · split at h
      · rename_i hcond
        rcases mem_of_stripSign r3 c h3 with rfl | rfl | hss
        · decide
        · decide
        · have hd := List.all_eq_true.mp hcond.2 c hss
          simp [coreOK, hd]
      · cases h
  · cases h

/-- An accepted decimal literal only contains `float()`-grammar characters. -/
theorem parseDecCore_charset {s : List Char} {q : ℚ}
    (h : parseDecCore s = some q) : ∀ c ∈ s, coreOK c = true := by
  intro c hc
  rw [← List.takeWhile_append_dropWhile (p := Char.isDigit) (l := s)] at hc
  rcases List.mem_append.mp hc with hip | hr1
  · simp [coreOK, List.mem_takeWhile_imp hip]
  · simp only [parseDecCore] at h
    split at h
    · exact absurd h (by simp)
    · rw [Option.map_eq_some'] at h
      obtain ⟨e, hexp, _⟩ := h
      split at hexp
      · rename_i r heq
        rw [heq] at hr1
        rcases List.mem_cons.mp hr1 with rfl | h2
        · decide
        · rw [← List.takeWhile_append_dropWhile (p := Char.isDigit) (l := r)] at h2
          rcases List.mem_append.mp h2 with h3 | h3
          · simp [coreOK, List.mem_takeWhile_imp h3]
          · exact parseExp_charset hexp c h3
      · exact parseExp_charset hexp c hr1

/-- An accepted signed literal only contains `float()`-grammar characters. -/
theorem pyFloatCore_charset {t : List Char} {v : PyF} (h : pyFloatCore t = some v) :
    ∀ c ∈ t, coreOK c = true := by
  intro c hc
  simp only [pyFloatCore] at h
  rcases mem_of_stripSign t c hc with rfl | rfl | hss
  · decide
  · decide
  · by_cases hinf : stripSign t = ("inf").data ∨ stripSign t = ("infinity").data
    · rcases hinf with hinf | hinf <;> rw [hinf] at hss
      · have hil : ("inf").data = ['i', 'n', 'f'] := rfl
        rw [hil] at hss
        simp only [List.mem_cons, List.not_mem_nil, or_false] at hss
        rcases hss with rfl | rfl | rfl <;> decide
      · have hil : ("infinity").data = ['i', 'n', 'f', 'i', 'n', 'i', 't', 'y'] := rfl
        rw [hil] at hss
        simp only [List.mem_cons, List.not_mem_nil, or_false] at hss
        rcases hss with rfl | rfl | rfl | rfl | rfl | rfl | rfl | rfl <;> decide
    · rw [if_neg hinf] at h
      by_cases hnan : stripSign t = ("nan").data
      · have hil : ("nan").data = ['n', 'a', 'n'] := rfl
        rw [hnan, hil] at hss
        simp only [List.mem_cons, List.not_mem_nil, or_false] at hss
        rcases hss with rfl | rfl | rfl <;> decide
      · rw [if_neg hnan, Option.map_eq_some'] at h
        obtain ⟨qq, hdec, _⟩ := h
        exact parseDecCore_charset hdec c hss

/-- A member of a list survives `dropWhile` or satisfies the predicate. -/
theorem mem_dropWhile_or {p : Char → Bool} {l : List Char} {c : Char} (h : c ∈ l) :
    c ∈ l.dropWhile p ∨ p c = true := by
  induction l with
  | nil => cases h
  | cons a t ih =>
    rw [List.dropWhile_cons]
    by_cases hpa : p a = true
    · rw [if_pos hpa]
      rcases List.mem_cons.mp h with rfl | h2
      · exact Or.inr hpa
      · exact ih h2
    · rw [if_neg hpa]
      exact Or.inl h

/-- A character of a string survives stripping or is whitespace. -/
theorem mem_pyStrip_or_ws {l : List Char} {c : Char} (h : c ∈ l) :
    c ∈ pyStrip l ∨ c.isWhitespace = true := by
  unfold pyStrip
  rcases mem_dropWhile_or (p := Char.isWhitespace) h with h1 | h1
  · rcases mem_dropWhile_or (p := Char.isWhitespace) (List.mem_reverse.mpr h1) with h2 | h2
    · exact Or.inl (List.mem_reverse.mpr h2)
    · exact Or.inr h2
  · exact Or.inr h1

/-- A string accepted by the `float()` model consists of whitespace and
characters whose lower-case form is in the `float()` grammar alphabet. -/
theorem pyFloat_charset {s : List Char} {v : PyF} (h : pyFloat? s = some v) :
    ∀ c ∈ s, c.isWhitespace = true ∨ coreOK c.toLower = true := by
  intro c hc
  simp only [pyFloat?] at h
  by_cases hund : underscoreOk (pyLower (pyStrip s)) = true
  · rw [if_pos hund] at h
    rcases mem_pyStrip_or_ws hc with h1 | h1
    · right
      have h2 : c.toLower ∈ pyLower (pyStrip s) := List.mem_map_of_mem _ h1
      by_cases hu : c.toLower = '_'
      · rw [hu]
        decide
      · have h3 : c.toLower ∈ (pyLower (pyStrip s)).filter (fun c => c ≠ '_') :=
          List.mem_filter.mpr ⟨h2, by simpa using hu⟩
        exact pyFloatCore_charset h c.toLower h3
    · exact Or.inl h1
  · rw [if_neg hund] at h
    cases h

/-- The fuelled replacement scanner passes over a prefix in which the pattern
never matches. -/
theorem removeAllAux_append (pat t : List Char) (s : List Char) : ∀ fuel : ℕ,
    (s ++ t).length ≤ fuel →
    (∀ i, i < s.length → pat.isPrefixOf ((s ++ t).drop i) = false) →
    removeAllAux pat fuel (s ++ t) = s ++ removeAllAux pat (fuel - s.length) t := by
  induction s with
  | nil =>
    intro fuel _ _
    simp
  | cons a s ih =>
    intro fuel hfuel hno
    cases fuel with
    | zero =>
      exfalso
      simp at hfuel
    | succ fl =>
      have h0 : pat.isPrefixOf (a :: (s ++ t)) = false := by
        have := hno 0 (by simp)
        simpa using this
      have hcons : removeAllAux pat (fl + 1) (a :: (s ++ t))
          = a :: removeAllAux pat fl (s ++ t) := by
        show (if pat ≠ [] ∧ pat.isPrefixOf (a :: (s ++ t)) = true then
            removeAllAux pat fl ((a :: (s ++ t)).drop pat.length)
          else a :: removeAllAux pat fl (s ++ t)) = a :: removeAllAux pat fl (s ++ t)
        rw [if_neg]
        rintro ⟨_, hp⟩
        rw [h0] at hp
        cases hp
      have hfl : (s ++ t).length ≤ fl := by
        simp only [List.cons_append, List.length_cons] at hfuel
        omega
      have hno2 : ∀ i, i < s.length → pat.isPrefixOf ((s ++ t).drop i) = false := by
        intro i hi
        have := hno (i + 1) (by simp only [List.length_cons]; omega)
        simpa using this
      show removeAllAux pat (fl + 1) (a :: (s ++ t)) = _
      rw [hcons, ih fl hfl hno2]
      simp [Nat.succ_sub_succ]

/-- `str.replace(pat, "")` leaves a pattern-free prefix intact. -/
theorem removeAll_append (pat s t : List Char)
    (hno : ∀ i, i < s.length → pat.isPrefixOf ((s ++ t).drop i) = false) :
    removeAll pat (s ++ t) = s ++ removeAll pat t := by
  unfold removeAll
  rw [removeAllAux_append pat t s (s ++ t).length le_rfl hno]
  have hlen : (s ++ t).length - s.length = t.length := by
    rw [List.length_append]
    omega
  rw [hlen]

/-- A string ends with the last character of any of its non-empty
suffixes. -/
theorem suffix_getLast {p v : List Char} (hp : p ≠ [])
    (h : p.isSuffixOf v = true) : v.getLast? = p.getLast? := by
  obtain ⟨w, rfl⟩ := List.isSuffixOf_iff_suffix.mp h
  rw [List.getLast?_append]
  rcases hpl : p.getLast? with _ | a
  · exact absurd (List.getLast?_eq_none_iff.mp hpl) hp
  · rfl

/-- A pattern whose first character cannot occur in an accepted float
literal never matches inside that literal. -/
theorem no_hit_head {s t : List Char} {a : Char} {rest : List Char}
    (hcs : ∀ c ∈ s, c.isWhitespace = true ∨ coreOK c.toLower = true)
    (ha : a.isWhitespace = false) (hca : coreOK a.toLower = false) :
    ∀ i, i < s.length → (a :: rest).isPrefixOf ((s ++ t).drop i) = false := by
  intro i hi
  rw [List.drop_append_of_le_length (Nat.le_of_lt hi),
    List.drop_eq_getElem_cons hi]
  have hmem : s[i] ∈ s := List.getElem_mem hi
  have hne : a ≠ s[i] := by
    intro hcontra
    rcases hcs s[i] hmem with h1 | h1
    · rw [← hcontra] at h1
      rw [ha] at h1
      cases h1
    · rw [← hcontra] at h1
      rw [hca] at h1
      cases h1
  show (a == s[i] && rest.isPrefixOf (s.drop (i + 1) ++ t)) = false
  rw [beq_eq_false_iff_ne.mpr hne, Bool.false_and]

/-- The pattern `em` never matches inside an accepted float literal (the
literal may contain `e`, but never an `m` after it). -/
theorem no_hit_em {s : List Char}
    (hcs : ∀ c ∈ s, c.isWhitespace = true ∨ coreOK c.toLower = true) :
    ∀ i, i < s.length → (['e', 'm']).isPrefixOf ((s ++ ['e', 'm']).drop i) = false := by
  intro i hi
  rw [List.drop_append_of_le_length (Nat.le_of_lt hi), List.drop_eq_getElem_cons hi]
  show ('e' == s[i] && (['m']).isPrefixOf (s.drop (i + 1) ++ ['e', 'm'])) = false
  by_cases he : s[i] = 'e'
  · rw [he, show ('e' == 'e') = true from rfl, Bool.true_and]
    rcases hdrop : s.drop (i + 1) with _ | ⟨b, r⟩
    · decide
    · show ('m' == b && ([] : List Char).isPrefixOf (r ++ ['e', 'm'])) = false
      have hb : b ∈ s := List.mem_of_mem_drop (by rw [hdrop]; exact List.mem_cons_self b r)
      have hbm : ('m' == b) = false := by
        rw [beq_eq_false_iff_ne]
        intro hcontra
        rcases hcs b hb with h1 | h1
        · rw [← hcontra] at h1
          exact absurd h1 (by decide)
        · rw [← hcontra] at h1
          exact absurd h1 (by decide)
      rw [hbm, Bool.false_and]
  · rw [beq_eq_false_iff_ne.mpr (fun hcontra => he hcontra.symm), Bool.false_and]

/-- C9: with root font size 16, `parse_length` maps `<float>px` to the
float's value, `<float>rem` and `<float>em` to the value times 16 (a float
multiplication, rounded back to a double), the keywords `auto`/`normal`/
`none` and every percentage to null, any other input to exactly what the
`float()` conversion yields on it, and null whenever the numeric text that
remains after suffix removal fails to parse as a float (so unparseable
input, bare or suffixed, yields null); in particular `1.5rem` parses to 24,
`50%` to null, and the unparseable inputs `""`, `abc` and `12qpx` to
null. -/
theorem parse_length_spec (u : String) (s : List Char) (q : ℚ) (f : PyF) :
    ((pyLower (pyStrip u.data) = s ++ ("px").data →
        pyFloat? s = some (.fin q) → parse_length u 16 = some (.fin q))
  ∧ (pyLower (pyStrip u.data) = s ++ ("rem").data →
        pyFloat? s = some (.fin q) →
        parse_length u 16 = some (roundDouble (q * 16)))
  ∧ (pyLower (pyStrip u.data) = s ++ ("em").data →
        pyFloat? s = some (.fin q) →
        parse_length u 16 = some (roundDouble (q * 16)))
  ∧ ((pyLower (pyStrip u.data) = ("auto").data
        ∨ pyLower (pyStrip u.data) = ("normal").data
        ∨ pyLower (pyStrip u.data) = ("none").data) → parse_length u 16 = none)
  ∧ (("%").data.isSuffixOf (pyLower (pyStrip u.data)) = true →
        parse_length u 16 = none)
  ∧ (pyFloat? (pyLower (pyStrip u.data)) = some f → parse_length u 16 = some f)
  ∧ (pyLower (pyStrip u.data) = s ++ ("px").data →
        pyFloat? (removeAll ("px").data (s ++ ("px").data)) = none →
        parse_length u 16 = none)
  ∧ (pyLower (pyStrip u.data) = s ++ ("rem").data →
        pyFloat? (removeAll ("rem").data (s ++ ("rem").data)) = none →
        parse_length u 16 = none)
  ∧ (pyLower (pyStrip u.data) = s ++ ("em").data →
        ("rem").data.isSuffixOf (s ++ ("em").data) = false →
        pyFloat? (removeAll ("em").data (s ++ ("em").data)) = none →
        parse_length u 16 = none)
  ∧ (u.data ≠ [] →
        ¬(pyLower (pyStrip u.data) = ("auto").data
          ∨ pyLower (pyStrip u.data) = ("normal").data
          ∨ pyLower (pyStrip u.data) = ("none").data) →
        ("px").data.isSuffixOf (pyLower (pyStrip u.data)) = false →
        ("rem").data.isSuffixOf (pyLower (pyStrip u.data)) = false →
        ("em").data.isSuffixOf (pyLower (pyStrip u.data)) = false →
        ("%").data.isSuffixOf (pyLower (pyStrip u.data)) = false →
        pyFloat? (pyLower (pyStrip u.data)) = none → parse_length u 16 = none))
  ∧ parse_length "1.5rem" 16 = some (.fin 24)
  ∧ parse_length "50%" 16 = none
  ∧ parse_length "" 16 = none
  ∧ parse_length "abc" 16 = none
  ∧ parse_length "12qpx" 16 = none := by
  refine ⟨⟨?_, ?_, ?_, ?_, ?_, ?_, ?_, ?_, ?_, ?_⟩, by decide, by decide,
    by decide, by decide, by decide⟩
  · -- px
    intro h1 h2
    rw [show ("px").data = ['p', 'x'] from rfl] at h1
    have hcs := pyFloat_charset h2
    have hne : ¬(u.data = []) := by
      intro h0
      rw [h0] at h1
      have h2 := congrArg List.length h1
      rw [show (pyLower (pyStrip ([] : List Char))).length = 0 from rfl,
        List.length_append] at h2
      simp at h2
    simp only [parse_length]
    rw [if_neg hne, h1]
    have hgl : ((s ++ ['p', 'x']).getLast? = some 'x') := by
      rw [List.getLast?_append]
      rfl
    rw [if_neg ?px_set]
    case px_set =>
      rintro (h | h | h) <;> rw [h] at hgl <;> exact absurd hgl (by decide)
    rw [if_pos (List.isSuffixOf_iff_suffix.mpr ⟨s, rfl⟩)]
    rw [removeAll_append _ s _ (no_hit_head hcs (by decide) (by decide))]
    rw [show removeAll ['p', 'x'] ['p', 'x'] = [] from rfl, List.append_nil]
    exact h2
  · -- rem
    intro h1 h2
    rw [show ("rem").data = ['r', 'e', 'm'] from rfl] at h1
    have hcs := pyFloat_charset h2
    have hne : ¬(u.data = []) := by
      intro h0
      rw [h0] at h1
      have h2 := congrArg List.length h1
      rw [show (pyLower (pyStrip ([] : List Char))).length = 0 from rfl,
        List.length_append] at h2
      simp at h2
    simp only [parse_length]
    rw [if_neg hne, h1]
    have hgl : ((s ++ ['r', 'e', 'm']).getLast? = some 'm') := by
      rw [List.getLast?_append]
      rfl
    rw [if_neg ?rem_set]
    case rem_set =>
      rintro (h | h | h) <;> rw [h] at hgl <;> exact absurd hgl (by decide)
    rw [if_neg ?rem_px]
    case rem_px =>
      intro hs
      have h3 := suffix_getLast (p := ("px").data) (by decide) hs
      rw [hgl] at h3
      exact absurd h3 (by decide)
    rw [if_pos (List.isSuffixOf_iff_suffix.mpr ⟨s, rfl⟩)]
    rw [removeAll_append _ s _ (no_hit_head hcs (by decide) (by decide))]
    rw [show removeAll ['r', 'e', 'm'] ['r', 'e', 'm'] = [] from rfl, List.append_nil]
    rw [h2]
    show some ((PyF.fin q).mulQ 16) = some (roundDouble (q * 16))
    rw [show (PyF.fin q).mulQ 16 = roundDouble (qMul q 16) from rfl, qMul_eq]
  · -- em
    intro h1 h2
    rw [show ("em").data = ['e', 'm'] from rfl] at h1
    have hcs := pyFloat_charset h2
    have hne : ¬(u.data = []) := by
      intro h0
      rw [h0] at h1
      have h2 := congrArg List.length h1
      rw [show (pyLower (pyStrip ([] : List Char))).length = 0 from rfl,
        List.length_append] at h2
      simp at h2
    simp only [parse_length]
    rw [if_neg hne, h1]
    have hgl : ((s ++ ['e', 'm']).getLast? = some 'm') := by
      rw [List.getLast?_append]
      rfl
    rw [if_neg ?em_set]
    case em_set =>
      rintro (h | h | h) <;> rw [h] at hgl <;> exact absurd hgl (by decide)
    rw [if_neg ?em_px]
    case em_px =>
      intro hs
      have h3 := suffix_getLast (p := ("px").data) (by decide) hs
      rw [hgl] at h3
      exact absurd h3 (by decide)
    rw [if_neg ?em_rem]
    case em_rem =>
      intro hs
      obtain ⟨w, hw⟩ := List.isSuffixOf_iff_suffix.mp hs
      have hw2 : (w ++ ['r']) ++ ['e', 'm'] = s ++ ['e', 'm'] := by
        rw [List.append_assoc]
        exact hw
      have hs_eq : s = w ++ ['r'] := (List.append_cancel_right hw2).symm
      have hr : 'r' ∈ s := by
        rw [hs_eq]
        exact List.mem_append_right w (List.mem_cons_self 'r' [])
      rcases hcs 'r' hr with h4 | h4
      · exact absurd h4 (by decide)
      · exact absurd h4 (by decide)
    rw [if_pos (List.isSuffixOf_iff_suffix.mpr ⟨s, rfl⟩)]
    rw [removeAll_append _ s _ (no_hit_em hcs)]
    rw [show removeAll ['e', 'm'] ['e', 'm'] = [] from rfl, List.append_nil]
    rw [h2]
    show some ((PyF.fin q).mulQ 16) = some (roundDouble (q * 16))
    rw [show (PyF.fin q).mulQ 16 = roundDouble (qMul q 16) from rfl, qMul_eq]
  · -- auto / normal / none
    intro hin
    have hne : ¬(u.data = []) := by
      intro h0
      rw [h0] at hin
      rcases hin with h | h | h <;> exact absurd (congrArg List.length h) (by decide)
    simp only [parse_length]
    rw [if_neg hne, if_pos hin]
  · -- percent
    intro h5
    have hne : ¬(u.data = []) := by
      intro h0
      rw [h0] at h5
      exact absurd h5 (by decide)
    have hgl : (pyLower (pyStrip u.data)).getLast? = some '%' := by
      rw [suffix_getLast (by decide) h5]
      rfl
    simp only [parse_length]
    rw [if_neg hne]
    rw [if_neg ?pc_set]
    case pc_set =>
      rintro (h | h | h) <;> rw [h] at hgl <;> exact absurd hgl (by decide)
    rw [if_neg ?pc_px]
    case pc_px =>
      intro hs
      have h3 := suffix_getLast (p := ("px").data) (by decide) hs
      rw [hgl] at h3
      exact absurd h3 (by decide)
    rw [if_neg ?pc_rem]
    case pc_rem =>
      intro hs
      have h3 := suffix_getLast (p := ("rem").data) (by decide) hs
      rw [hgl] at h3
      exact absurd h3 (by decide)
    rw [if_neg ?pc_em]
    case pc_em =>
      intro hs
      have h3 := suffix_getLast (p := ("em").data) (by decide) hs
      rw [hgl] at h3
      exact absurd h3 (by decide)
    rw [if_pos h5]
  · -- bare numeric
    intro h6
    have hcs := pyFloat_charset h6
    have hne : ¬(u.data = []) := by
      intro h0
      rw [h0] at h6
      have hnone : (none : Option PyF) = some f := h6
      cases hnone
    simp only [parse_length]
    rw [if_neg hne]
    rw [if_neg ?b_set]
    case b_set =>
      rintro (h | h | h) <;>
      · have ho : 'o' ∈ pyLower (pyStrip u.data) := by
          rw [h]
          decide
        rcases hcs 'o' ho with h4 | h4
        · exact absurd h4 (by decide)
        · exact absurd h4 (by decide)
    rw [if_neg ?b_px]
    case b_px =>
      intro hs
      have h3 := suffix_getLast (p := ("px").data) (by decide) hs
      have hx : 'x' ∈ pyLower (pyStrip u.data) :=
        List.mem_of_getLast?_eq_some (by rw [h3]; rfl)
      rcases hcs 'x' hx with h4 | h4
      · exact absurd h4 (by decide)
      · exact absurd h4 (by decide)
    rw [if_neg ?b_rem]
    case b_rem =>
      intro hs
      have h3 := suffix_getLast (p := ("rem").data) (by decide) hs
      have hx : 'm' ∈ pyLower (pyStrip u.data) :=
        List.mem_of_getLast?_eq_some (by rw [h3]; rfl)
      rcases hcs 'm' hx with h4 | h4
      · exact absurd h4 (by decide)
      · exact absurd h4 (by decide)
    rw [if_neg ?b_em]
    case b_em =>
      intro hs
      have h3 := suffix_getLast (p := ("em").data) (by decide) hs
      have hx : 'm' ∈ pyLower (pyStrip u.data) :=
        List.mem_of_getLast?_eq_some (by rw [h3]; rfl)
      rcases hcs 'm' hx with h4 | h4
      · exact absurd h4 (by decide)
      · exact absurd h4 (by decide)
    rw [if_neg ?b_pc]
    case b_pc =>
      intro hs
      have h3 := suffix_getLast (p := ("%").data) (by decide) hs
      have hx : '%' ∈ pyLower (pyStrip u.data) :=
        List.mem_of_getLast?_eq_some (by rw [h3]; rfl)
      rcases hcs '%' hx with h4 | h4
      · exact absurd h4 (by decide)
      · exact absurd h4 (by decide)
    exact h6
  · -- px suffix, unparseable numeric text
    intro h1 hN
    have hne : ¬(u.data = []) := by
      intro h0
      rw [h0] at h1
      have h2 := congrArg List.length h1
      rw [show (pyLower (pyStrip ([] : List Char))).length = 0 from rfl,
        List.length_append] at h2
      simp at h2
    simp only [parse_length]
    rw [if_neg hne, h1]
    have hgl : ((s ++ ("px").data).getLast? = some 'x') := by
      rw [List.getLast?_append]
      rfl
    rw [if_neg ?pxn_set]
    case pxn_set =>
      rintro (h | h | h) <;> rw [h] at hgl <;> exact absurd hgl (by decide)
    rw [if_pos (List.isSuffixOf_iff_suffix.mpr ⟨s, rfl⟩)]
    exact hN
  · -- rem suffix, unparseable numeric text
    intro h1 hN
    have hne : ¬(u.data = []) := by
      intro h0
      rw [h0] at h1
      have h2 := congrArg List.length h1
      rw [show (pyLower (pyStrip ([] : List Char))).length = 0 from rfl,
        List.length_append] at h2
      simp at h2
    simp only [parse_length]
    rw [if_neg hne, h1]
    have hgl : ((s ++ ("rem").data).getLast? = some 'm') := by
      rw [List.getLast?_append]
      rfl
    rw [if_neg ?remn_set]
    case remn_set =>
      rintro (h | h | h) <;> rw [h] at hgl <;> exact absurd hgl (by decide)
    rw [if_neg ?remn_px]
    case remn_px =>
      intro hs
      have h3 := suffix_getLast (p := ("px").data) (by decide) hs
      rw [hgl] at h3
      exact absurd h3 (by decide)
    rw [if_pos (List.isSuffixOf_iff_suffix.mpr ⟨s, rfl⟩), hN]
    rfl
  · -- em suffix (not rem), unparseable numeric text
    intro h1 hrem hN
    have hne : ¬(u.data = []) := by
      intro h0
      rw [h0] at h1
      have h2 := congrArg List.length h1
      rw [show (pyLower (pyStrip ([] : List Char))).length = 0 from rfl,
        List.length_append] at h2
      simp at h2
    simp only [parse_length]
    rw [if_neg hne, h1]
    have hgl : ((s ++ ("em").data).getLast? = some 'm') := by
      rw [List.getLast?_append]
      rfl
    rw [if_neg ?emn_set]
    case emn_set =>
      rintro (h | h | h) <;> rw [h] at hgl <;> exact absurd hgl (by decide)
    rw [if_neg ?emn_px]
    case emn_px =>
      intro hs
      have h3 := suffix_getLast (p := ("px").data) (by decide) hs
      rw [hgl] at h3
      exact absurd h3 (by decide)
    rw [if_neg (by simp [hrem])]
    rw [if_pos (List.isSuffixOf_iff_suffix.mpr ⟨s, rfl⟩), hN]
    rfl
  · -- bare, unparseable
    intro hne hkw hpx hrem hem hpc hN
    simp only [parse_length]
    rw [if_neg hne, if_neg hkw, if_neg (by simp [hpx]), if_neg (by simp [hrem]),
      if_neg (by simp [hem]), if_neg (by simp [hpc])]
    exact hN

/-- Witness for the C9 theorem at concrete inputs of each clause. -/
theorem parse_length_spec_witness :
    parse_length "10px" 16 = some (.fin 10)
  ∧ parse_length "2em" 16 = some (.fin 32)
  ∧ parse_length "auto" 16 = none
  ∧ parse_length "42" 16 = some (.fin 42)
  ∧ parse_length "qpx" 16 = none
  ∧ parse_length "zz" 16 = none := by
  refine ⟨?_, ?_, ?_, ?_, ?_, ?_⟩
  · exact ((parse_length_spec "10px" ['1', '0'] 10 PyF.nan).1.1)
      (by decide) (by decide)
  · have h := ((parse_length_spec "2em" ['2'] 2 PyF.nan).1.2.2.1)
      (by decide) (by decide)
    rw [h, show ((2 : ℚ) * 16) = 32 by norm_num]
    decide
  · exact ((parse_length_spec "auto" [] 0 PyF.nan).1.2.2.2.1) (Or.inl (by decide))
  · exact ((parse_length_spec "42" [] 0 (PyF.fin 42)).1.2.2.2.2.2.1) (by decide)
  · exact ((parse_length_spec "qpx" ['q'] 0 PyF.nan).1.2.2.2.2.2.2.1)
      (by decide) (by decide)
  · exact ((parse_length_spec "zz" [] 0 PyF.nan).1.2.2.2.2.2.2.2.2.2)
      (by decide) (by decide) (by decide) (by decide) (by decide) (by decide)
      (by decide)
